import Mathlib

/-!
Verification of the multi-agent workflow builder.

The repository ships the React front end (the visual workflow editor in
`frontend/src/components/WorkflowCanvas.js`, plus the execution monitor and app
shell) together with documentation of the Python backend; the backend source
itself (graph validation, topological ordering, agent dispatch, the execution
loop and result aggregation) is not part of the source tree.  Following the
specification, the engine side is therefore modelled here from the spec's own
words (each such definition is marked `Modelled from the spec:`), while the
editor side is a direct shallow embedding of `WorkflowCanvas.js`.

Namespace `Engine` holds the execution-engine model, namespace `Canvas` the
embedding of the editor component.
-/

namespace Engine

/-- Modelled from the spec: §3 — a Node is "id, agent-type tag, model name,
natural-language instructions".  Node ids are the stable integer ids the spec's
design notes call for (§9, "stable string/integer ids in flat collections"). -/
structure Node where
  id : Nat
  agentType : String
  model : String
  instructions : String
deriving DecidableEq

/-- Modelled from the spec: §3 — an Edge is "id, source node id, target node id,
optional condition (a deferred/unevaluated expression)". -/
structure Edge where
  id : Nat
  source : Nat
  target : Nat
  condition : Option String
deriving DecidableEq

/-- Modelled from the spec: §3 — a Workflow is "identifier, name, description,
ordered set of Nodes, set of Edges". -/
structure Workflow where
  id : Nat
  name : String
  description : String
  nodes : List Node
  edges : List Edge
deriving DecidableEq

/-- Modelled from the spec: §7 error taxonomy
`GraphValidationError\x7bDuplicateNodeId, DanglingEdge, CycleDetected\x7d`,
each reporting an offending id. -/
inductive GraphValidationError where
  | DuplicateNodeId (id : Nat)
  | DanglingEdge (id : Nat)
  | CycleDetected (id : Nat)
deriving DecidableEq

/-- The list of node ids of a workflow, in authoring order. -/
def nodeIds (w : Workflow) : List Nat :=
  w.nodes.map Node.id

/-- First id that occurs twice in the list (validation check 1: duplicate node
ids). -/
def firstDup : List Nat → Option Nat
  | [] => none
  | x :: xs => if x ∈ xs then some x else firstDup xs

/-- First edge (by its id) whose source or target is not a known node id
(validation check 2: dangling edges). -/
def firstDangling (ids : List Nat) : List Edge → Option Nat
  | [] => none
  | e :: es =>
    if e.source ∈ ids ∧ e.target ∈ ids then firstDangling ids es else some e.id

/-- `isRoot edges remaining v` holds when no still-unprocessed node has an edge
into `v`: `v` can be emitted next by the topological ordering. -/
def isRoot (edges : List Edge) (remaining : List Nat) (v : Nat) : Bool :=
  edges.all fun e => !(e.target == v && remaining.contains e.source)

/-- Nodes of `remaining` that currently have no incoming edge from `remaining`. -/
def roots (edges : List Edge) (remaining : List Nat) : List Nat :=
  remaining.filter (isRoot edges remaining)

/-- Modelled from the spec: §4.1 — the deterministic topological ordering.
Repeatedly emit the least-id node whose predecessors have all been emitted
("root nodes … ascending by node id", "ties … likewise broken by ascending node
id").  When no node is available although some remain, the graph has a cycle
and the stuck remainder is returned as the error payload.  The fuel argument is
the number of remaining nodes; one node is removed per step. -/
def kahn (edges : List Edge) : Nat → List Nat → Except (List Nat) (List Nat)
  | 0, remaining => if remaining.isEmpty then .ok [] else .error remaining
  | fuel + 1, remaining =>
    if remaining.isEmpty then .ok []
    else
      match (roots edges remaining).min? with
      | none => .error remaining
      | some v =>
        match kahn edges fuel (remaining.erase v) with
        | .error r => .error r
        | .ok order => .ok (v :: order)

/-- Modelled from the spec: §4.1 —
`validate(workflow) -> Ok | GraphValidationError`.  "Checks, in order:
duplicate node ids, edges referencing unknown nodes, cycle detection over the
directed graph."  On success the canonical topological order is exposed
(§4.1, "A validated graph exposes topologicalOrder()").  The spec's DFS
coloring reports the node id at the first back edge; which id gets reported is
immaterial to the claims, and the model reports the least id still stuck in
the cyclic remainder. -/
def validate (w : Workflow) : Except GraphValidationError (List Nat) :=
  match firstDup (nodeIds w) with
  | some i => .error (.DuplicateNodeId i)
  | none =>
    match firstDangling (nodeIds w) w.edges with
    | some i => .error (.DanglingEdge i)
    | none =>
      match kahn w.edges (nodeIds w).length (nodeIds w) with
      | .error stuck => .error (.CycleDetected (stuck.min?.getD 0))
      | .ok order => .ok order

/-- Modelled from the spec: §4.1 — `topologicalOrder()` of a validated graph;
`none` when validation rejects the workflow. -/
def topologicalOrder (w : Workflow) : Option (List Nat) :=
  (validate w).toOption

/-- Modelled from the spec: §4.3/§9 — whether an edge gates traversal of its
target.  An absent condition means "always traverse"; the condition-expression
grammar is deliberately left unspecified and the current editor only ever
emits absent conditions, so the model leaves every edge open. -/
def edgeOpen (e : Edge) : Bool :=
  match e.condition with
  | none => true
  | some _ => true

/-- `beforeIn a b l`: some occurrence of `a` in `l` is strictly before some
occurrence of `b` ("every node appears after all its predecessors"). -/
def beforeIn (a b : Nat) : List Nat → Bool
  | [] => false
  | x :: xs => (x == a && xs.contains b) || beforeIn a b xs

/-- One directed step of the workflow graph: some edge goes from `a` to `b`. -/
def edgeRel (w : Workflow) (a b : Nat) : Prop :=
  ∃ e ∈ w.edges, e.source = a ∧ e.target = b

/-- The node/edge graph contains a (directed) cycle: some node reaches itself
through a nonempty edge path. -/
def hasCycle (w : Workflow) : Prop :=
  ∃ a, Relation.TransGen (edgeRel w) a a

/-- Modelled from the spec: §6 ModelClient contract —
`invoke(model, instructions, input) -> text | Fail\x7bUnreachable, Timeout,
InvalidModel\x7d`. -/
inductive ModelOutcome where
  | success (text : String)
  | unreachable
  | timeout
  | invalidModel
deriving DecidableEq

/-- The failure kinds of `ModelRuntimeError` (§7). -/
inductive FailKind where
  | unreachable
  | timeout
  | invalidModel
deriving DecidableEq

/-- Result of one dispatch as seen by the Executor: a text result, a failure
surfaced as a failed Step, or `DispatchError::UnknownAgentType`. -/
inductive DispatchOutcome where
  | ok (text : String)
  | failed (k : FailKind)
  | unknownAgent
deriving DecidableEq

/-- Map a (non-retried or retried) model outcome to the dispatch result. -/
def outcomeToResult : ModelOutcome → DispatchOutcome
  | .success t => .ok t
  | .unreachable => .failed .unreachable
  | .timeout => .failed .timeout
  | .invalidModel => .failed .invalidModel

/-- Modelled from the spec: §4.2 AgentDispatcher —
`dispatch(node, accumulatedContext) -> StepResult`.  An unknown agent-type tag
fails immediately with `DispatchError::UnknownAgentType` (no backend call).  A
known tag invokes the behaviour through the ModelClient; on
`ModelRuntimeError\x7bUnreachable|Timeout\x7d` the dispatcher retries exactly
once after a fixed backoff (the backoff is wall-clock time and is not
observable in this embedding; the retry count is), `InvalidModel` is never
retried.  `client a` is the model backend's answer to attempt number `a` for
this node; the second component counts the attempts actually made. -/
def dispatch (registry : List String) (n : Node) (client : Nat → ModelOutcome) :
    DispatchOutcome × Nat :=
  if n.agentType ∈ registry then
    match client 0 with
    | .success t => (.ok t, 1)
    | .invalidModel => (.failed .invalidModel, 1)
    | .unreachable => (outcomeToResult (client 1), 2)
    | .timeout => (outcomeToResult (client 1), 2)
  else (.unknownAgent, 0)

/-- Step status: success or error (§3). -/
inductive StepStatus where
  | success
  | error
deriving DecidableEq

/-- Error detail recorded on a failed Step (§3, §7). -/
inductive StepError where
  | modelError (k : FailKind)
  | unknownAgentType
deriving DecidableEq

/-- Modelled from the spec: §3 — a Step records "the node id and agent-type
that ran, the result payload, a status (success/error), and an error detail
when failed". -/
structure Step where
  nodeId : Nat
  agentType : String
  resultText : String
  status : StepStatus
  errorDetail : Option StepError
deriving DecidableEq

/-- A successful Step with the backend's text result. -/
def mkSuccessStep (v : Nat) (ty t : String) : Step :=
  { nodeId := v, agentType := ty, resultText := t, status := .success,
    errorDetail := none }

/-- A failed Step carrying its error detail. -/
def mkErrorStep (v : Nat) (ty : String) (err : StepError) : Step :=
  { nodeId := v, agentType := ty, resultText := "", status := .error,
    errorDetail := some err }

/-- Modelled from the spec: §4.3 / §6 — the observable execution statuses
`queued | running | completed | failed | canceled`. -/
inductive ExecStatus where
  | queued
  | running
  | completed
  | failed
  | canceled
deriving DecidableEq

/-- The three terminal statuses of the §4.3 state machine. -/
def ExecStatus.isTerminal : ExecStatus → Bool
  | .completed => true
  | .failed => true
  | .canceled => true
  | _ => false

/-- The transitions of the §4.3 state machine
`Queued → Running → \x7bCompleted, Failed, Canceled\x7d` (staying in `Running`
while nodes dispatch). -/
def allowedTransition : ExecStatus → ExecStatus → Bool
  | .queued, .running => true
  | .running, .running => true
  | .running, .completed => true
  | .running, .failed => true
  | .running, .canceled => true
  | _, _ => false

/-- Modelled from the spec: §4.3 — "a cancellation request sets a flag checked
before each node dispatch".  `cancelFrom = some c` means the flag is observed
set from the `c`-th dispatch on (cancellation is monotone: once requested it
stays requested); `none` means it is never set. -/
def cancelRequested (cancelFrom : Option Nat) (idx : Nat) : Bool :=
  match cancelFrom with
  | none => false
  | some c => c ≤ idx

/-- Modelled from the spec: §4.3 — the Executor loop over the topological
order, as the sequence of `(status, steps)` snapshots it records: one snapshot
per appended Step, then the terminal snapshot.  Before each dispatch the
cancellation flag is checked; on a Step success the Step is appended and the
loop continues; on a failure (retry exhausted, or `DispatchError`) the failed
Step is appended and the run stops in `Failed`; on exhausting the order the run
ends in `Completed`.  Edge conditions are not evaluated here: the current
editor always emits absent conditions and an absent condition means "always
traverse" (§9), so no node is ever skipped.  `client v a` is the backend
outcome for attempt `a` at node `v`; `idx` counts dispatches for the
cancellation check. -/
def loopTrace (registry : List String) (nodes : List Node)
    (client : Nat → Nat → ModelOutcome) (cancelFrom : Option Nat) :
    List Nat → Nat → List Step → List (ExecStatus × List Step)
  | [], _, acc => [(.completed, acc)]
  | v :: rest, idx, acc =>
    if cancelRequested cancelFrom idx then [(.canceled, acc)]
    else
      match nodes.find? (fun n => n.id == v) with
      | none => loopTrace registry nodes client cancelFrom rest (idx + 1) acc
      | some n =>
        match (dispatch registry n (client v)).1 with
        | .ok t =>
          (.running, acc ++ [mkSuccessStep v n.agentType t]) ::
            loopTrace registry nodes client cancelFrom rest (idx + 1)
              (acc ++ [mkSuccessStep v n.agentType t])
        | .failed k =>
          [(.failed, acc ++ [mkErrorStep v n.agentType (.modelError k)])]
        | .unknownAgent =>
          [(.failed, acc ++ [mkErrorStep v n.agentType .unknownAgentType])]

/-- The final `(status, steps)` the Executor loop ends in (the last snapshot of
`loopTrace`). -/
def runLoop (registry : List String) (nodes : List Node)
    (client : Nat → Nat → ModelOutcome) (cancelFrom : Option Nat) :
    List Nat → Nat → List Step → ExecStatus × List Step
  | [], _, acc => (.completed, acc)
  | v :: rest, idx, acc =>
    if cancelRequested cancelFrom idx then (.canceled, acc)
    else
      match nodes.find? (fun n => n.id == v) with
      | none => runLoop registry nodes client cancelFrom rest (idx + 1) acc
      | some n =>
        match (dispatch registry n (client v)).1 with
        | .ok t =>
          runLoop registry nodes client cancelFrom rest (idx + 1)
            (acc ++ [mkSuccessStep v n.agentType t])
        | .failed k =>
          (.failed, acc ++ [mkErrorStep v n.agentType (.modelError k)])
        | .unknownAgent =>
          (.failed, acc ++ [mkErrorStep v n.agentType .unknownAgentType])

/-- The full snapshot trace of one accepted run: `Queued` on creation,
`Running` on acceptance, then the loop's snapshots. -/
def execTrace (registry : List String) (nodes : List Node)
    (client : Nat → Nat → ModelOutcome) (cancelFrom : Option Nat)
    (order : List Nat) : List (ExecStatus × List Step) :=
  (.queued, []) :: (.running, []) :: loopTrace registry nodes client cancelFrom order 0 []

/-- Modelled from the spec: §4.4 ResultAggregator — "if the last node in
topological order that actually produced a Step is tagged `reviewer`, its
result text is the final output; otherwise the final output is the result text
of the last produced Step."  Steps are recorded in dispatch order, so that
node's Step is the last Step of the trace. -/
def aggregateFinalOutput (steps : List Step) : Option String :=
  match steps.getLast? with
  | none => none
  | some s => if s.agentType = "reviewer" then some s.resultText else some s.resultText

/-- Modelled from the spec: §3 — an Execution record. -/
structure Execution where
  id : Nat
  workflowId : Nat
  input : String
  status : ExecStatus
  steps : List Step
  finalOutput : Option String
deriving DecidableEq

/-- Modelled from the spec: §4.3, §7, §8 — accepting an execute request.  The
workflow snapshot is validated first; "no Execution is ever created against an
invalid graph" (§7), so a validation error yields the error and no Execution
record.  Otherwise the Executor drives the loop over the canonical topological
order and the ResultAggregator produces the final output, which "remains
absent" for `Failed` or `Canceled` runs (§4.4). -/
def startExecution (registry : List String) (w : Workflow) (input : String)
    (client : Nat → Nat → ModelOutcome) (cancelFrom : Option Nat)
    (execId : Nat) : Except GraphValidationError Execution :=
  match validate w with
  | .error e => .error e
  | .ok order =>
    let res := runLoop registry w.nodes client cancelFrom order 0 []
    .ok { id := execId, workflowId := w.id, input := input, status := res.1,
          steps := res.2,
          finalOutput :=
            if res.1 = .completed then aggregateFinalOutput res.2 else none }

end Engine

namespace Canvas

/-- A node of the editor canvas (`WorkflowCanvas.js`): the `id`, the
`data.agentType`, `data.model` and `data.instructions` fields, and the
`position` produced by `addNode` (`Math.random()*400+100` etc.; the JS float
coordinates are abstracted as integers — no claim inspects their values).  The
purely visual `data.label` and `style` props are presentation only and carry no
persisted information beyond these fields. -/
structure CanvasNode where
  id : String
  agentType : String
  model : String
  instructions : String
  posX : Int
  posY : Int
deriving DecidableEq

/-- An edge of the editor canvas as created by `onConnect` via reactflow's
`addEdge`: `saveWorkflow` reads exactly its `id`, `source` and `target`
(the `animated`/`style` props are visual only). -/
structure CanvasEdge where
  id : String
  source : String
  target : String
deriving DecidableEq

/-- The component state of `WorkflowCanvas`: the `nodes`, `edges`,
`workflowName`, `workflowDescription` and `selectedNode` state hooks
(`selectedNode` kept as the selected node's id). -/
structure CanvasState where
  nodes : List CanvasNode
  edges : List CanvasEdge
  workflowName : String
  workflowDescription : String
  selectedNode : Option String
deriving DecidableEq

/-- The node id generated by `addNode`: the template literal
`node-$\x7bDate.now()\x7d`. -/
def nodeIdOf (now : Nat) : String :=
  "node-" ++ toString now

/-- `addNode(type)` (WorkflowCanvas.js lines 50-80): appends a new node with id
`node-$\x7bDate.now()\x7d`, the given agent type, the currently selected
model, and default instructions.  `now` is the value `Date.now()` returned for
this call and `posX`/`posY` the random position. -/
def addNode (now : Nat) (posX posY : Int) (selectedModel : String) (ty : String)
    (nds : List CanvasNode) : List CanvasNode :=
  nds ++ [{ id := nodeIdOf now, agentType := ty, model := selectedModel,
            instructions := "Default agent instructions",
            posX := posX, posY := posY }]

/-- The data of one `addNode` call: its `Date.now()` value, random position,
selected model and the agent type of the button pressed. -/
structure AddCall where
  now : Nat
  posX : Int
  posY : Int
  modelSel : String
  ty : String

/-- A sequence of consecutive `addNode` calls applied to the canvas node
list. -/
def addNodeSeq (calls : List AddCall) (nds : List CanvasNode) : List CanvasNode :=
  calls.foldl (fun acc c => addNode c.now c.posX c.posY c.modelSel c.ty acc) nds

/-- `deleteSelectedNode` (WorkflowCanvas.js lines 122-128): with no selection
it returns early; otherwise it filters the selected node out of `nodes`,
keeps only edges with `edge.source !== selectedNode.id &&
edge.target !== selectedNode.id`, and clears the selection. -/
def deleteSelectedNode (s : CanvasState) : CanvasState :=
  match s.selectedNode with
  | none => s
  | some nid =>
    { s with
        nodes := s.nodes.filter (fun n => !(n.id == nid)),
        edges := s.edges.filter
          (fun e => !(e.source == nid) && !(e.target == nid)),
        selectedNode := none }

/-- A JSON-like value, used to state exactly which fields the editor's save
payload carries. -/
inductive JVal where
  | null
  | str (s : String)
  | num (n : Int)
  | obj (fields : List (String × JVal))
  | arr (items : List JVal)

/-- The field names of a JSON object (in order); `[]` for non-objects. -/
def fieldNames : JVal → List String
  | .obj fs => fs.map Prod.fst
  | _ => []

/-- Look up a field of a JSON object. -/
def getField (j : JVal) (k : String) : Option JVal :=
  match j with
  | .obj fs => (fs.find? (fun p => p.1 == k)).map Prod.snd
  | _ => none

/-- The node object `saveWorkflow` emits for one canvas node
(WorkflowCanvas.js lines 145-152): `\x7bid, type: 'agent', agent_type, model,
instructions, position\x7d`. -/
def nodePayload (n : CanvasNode) : JVal :=
  .obj [("id", .str n.id), ("type", .str "agent"),
        ("agent_type", .str n.agentType), ("model", .str n.model),
        ("instructions", .str n.instructions),
        ("position", .obj [("x", .num n.posX), ("y", .num n.posY)])]

/-- The edge object `saveWorkflow` emits for one canvas edge
(WorkflowCanvas.js lines 153-158): `\x7bid, source, target,
condition: null\x7d`. -/
def edgePayload (e : CanvasEdge) : JVal :=
  .obj [("id", .str e.id), ("source", .str e.source),
        ("target", .str e.target), ("condition", .null)]

/-- The `workflowData` object `saveWorkflow` posts (WorkflowCanvas.js lines
142-159): `\x7bname, description, nodes, edges\x7d` — the workflow id is not
part of the editor's payload (the server assigns it). -/
def workflowPayload (s : CanvasState) : JVal :=
  .obj [("name", .str s.workflowName),
        ("description", .str s.workflowDescription),
        ("nodes", .arr (s.nodes.map nodePayload)),
        ("edges", .arr (s.edges.map edgePayload))]

/-- JavaScript's `String.prototype.trim`: strip whitespace from both ends of
the string, embedded structurally over the character list.  (JS trims a
slightly larger Unicode whitespace class than `Char.isWhitespace`; the
difference is irrelevant to every claim, which only distinguish all-whitespace
names from names with visible characters.) -/
def jsTrim (s : String) : String :=
  ⟨((s.data.dropWhile Char.isWhitespace).reverse.dropWhile
      Char.isWhitespace).reverse⟩

/-- `saveWorkflow` (WorkflowCanvas.js lines 130-175): returns early — issuing
no request and leaving the state untouched — when the trimmed workflow name is
empty (`!workflowName.trim()`) or when `nodes.length === 0`; otherwise it
posts `workflowPayload` and resets the form (name, description, nodes, edges,
selection).  The first component is the request body actually sent (`none` =
no request); the network call itself is outside the embedding and modelled as
succeeding. -/
def saveWorkflow (s : CanvasState) : Option JVal × CanvasState :=
  if jsTrim s.workflowName = "" then (none, s)
  else if s.nodes.length = 0 then (none, s)
  else (some (workflowPayload s),
        { nodes := [], edges := [], workflowName := "",
          workflowDescription := "", selectedNode := none })

/-- The persisted node shape asserted by the spec (§6): fields
`id, agent_type, model, instructions`. -/
def specNodeFields : List String :=
  ["id", "agent_type", "model", "instructions"]

/-- The persisted edge shape asserted by the spec (§6): fields
`id, source, target, condition`. -/
def specEdgeFields : List String :=
  ["id", "source", "target", "condition"]

/-- The persisted workflow shape asserted by the spec (§6): fields
`id, name, description, nodes, edges`. -/
def specTopFields : List String :=
  ["id", "name", "description", "nodes", "edges"]

/-- Is `j` an array of objects carrying exactly the given field names? -/
def isArrOfObjsWith (names : List String) : JVal → Bool
  | .arr items => items.all (fun it => fieldNames it == names)
  | _ => false

/-- Whether a payload has exactly the §6 persisted-form shape claimed by the
spec.  This definition follows the spec's words, for comparison against the
payload the source actually builds. -/
def matchesSpecShape (j : JVal) : Bool :=
  (fieldNames j == specTopFields) &&
  (match getField j "nodes" with
   | some nj => isArrOfObjsWith specNodeFields nj
   | none => false) &&
  (match getField j "edges" with
   | some ej => isArrOfObjsWith specEdgeFields ej
   | none => false)

end Canvas

namespace NatStr

/-- The big-endian decimal digit characters of `n`, defined structurally (the
reference implementation `Nat.toDigitsCore` in core uses fuel). -/
def decDigits (n : Nat) : List Char :=
  if _h : n < 10 then [Nat.digitChar n]
  else decDigits (n / 10) ++ [Nat.digitChar (n % 10)]
decreasing_by exact Nat.div_lt_self (by omega) (by omega)

end NatStr

namespace Fixtures

open Engine

/-- Scenario C fixture: two nodes with edges `A→B, B→A` — a cyclic graph. -/
def wCyc : Workflow :=
  { id := 10, name := "cyc", description := "",
    nodes := [{ id := 1, agentType := "planner", model := "mistral",
                instructions := "a" },
              { id := 2, agentType := "executor", model := "llama3",
                instructions := "b" }],
    edges := [{ id := 100, source := 1, target := 2, condition := none },
              { id := 101, source := 2, target := 1, condition := none }] }

/-- Scenario A fixture: `P(planner,mistral) → E(executor,llama3) →
R(reviewer,qwen2)` as node ids `1 → 2 → 3`. -/
def wChain : Workflow :=
  { id := 11, name := "chain", description := "",
    nodes := [{ id := 1, agentType := "planner", model := "mistral",
                instructions := "plan" },
              { id := 2, agentType := "executor", model := "llama3",
                instructions := "act" },
              { id := 3, agentType := "reviewer", model := "qwen2",
                instructions := "check" }],
    edges := [{ id := 100, source := 1, target := 2, condition := none },
              { id := 101, source := 2, target := 3, condition := none }] }

/-- The agent registry populated at process start: planner, executor,
reviewer. -/
def registryPER : List String :=
  ["planner", "executor", "reviewer"]

/-- A backend where every call succeeds, answering `out-<nodeId>`. -/
def clientAllOk : Nat → Nat → ModelOutcome :=
  fun v _ => .success ("out-" ++ toString v)

/-- Scenario B backend behaviour for one node: `Unreachable` on the original
attempt and on the single retry. -/
def clientDown : Nat → ModelOutcome :=
  fun _ => .unreachable

/-- A backend where node 2's calls are `Unreachable` (both attempts) and every
other node succeeds. -/
def clientNode2Down : Nat → Nat → ModelOutcome :=
  fun v _ => if v = 2 then .unreachable else .success ("out-" ++ toString v)

end Fixtures

namespace CanvasFixtures

open Canvas

/-- A canvas holding one configured node and one edge attached to it, with a
second node so deletion leaves something behind. -/
def twoNodeState : CanvasState :=
  { nodes := [{ id := "node-1", agentType := "planner", model := "mistral",
                instructions := "p", posX := 120, posY := 140 },
              { id := "node-2", agentType := "executor", model := "llama3",
                instructions := "e", posX := 220, posY := 240 }],
    edges := [{ id := "reactflow__edge-node-1node-2", source := "node-1",
                target := "node-2" }],
    workflowName := "My Workflow", workflowDescription := "demo",
    selectedNode := some "node-1" }

/-- A canvas with a whitespace-only name and no nodes: both `saveWorkflow`
guards apply. -/
def emptyState : CanvasState :=
  { nodes := [], edges := [], workflowName := "  ",
    workflowDescription := "", selectedNode := none }

end CanvasFixtures

namespace Canvas

/-- C10: `saveWorkflow` never issues a save request for a workflow whose name
is empty after trimming or whose node list is empty — it returns early and the
canvas state is unchanged. -/
theorem saveWorkflow_guard (s : CanvasState)
    (h : jsTrim s.workflowName = "" ∨ s.nodes = []) :
    saveWorkflow s = (none, s) := by
  by_cases ht : jsTrim s.workflowName = ""
  · simp [saveWorkflow, ht]
  · rcases h with h | h
    · exact absurd h ht
    · simp [saveWorkflow, ht, h]

/-- Witness for C10 at a concrete canvas: whitespace-only name, no nodes. -/
theorem saveWorkflow_guard_witness :
    (jsTrim CanvasFixtures.emptyState.workflowName = "" ∨
      CanvasFixtures.emptyState.nodes = []) ∧
    saveWorkflow CanvasFixtures.emptyState = (none, CanvasFixtures.emptyState) :=
  ⟨Or.inr rfl, saveWorkflow_guard CanvasFixtures.emptyState (Or.inr rfl)⟩

/-- C9: after `deleteSelectedNode` removes the selected node, every remaining
edge has a source and target different from the deleted node's id (and the
node itself is gone) — no dangling edge is left behind. -/
theorem deleteSelectedNode_no_dangling (s : CanvasState) (nid : String)
    (h : s.selectedNode = some nid) :
    (∀ e ∈ (deleteSelectedNode s).edges, e.source ≠ nid ∧ e.target ≠ nid) ∧
    (∀ n ∈ (deleteSelectedNode s).nodes, n.id ≠ nid) := by
  constructor
  · intro e he
    simp only [deleteSelectedNode, h] at he
    simp only [List.mem_filter, Bool.and_eq_true, Bool.not_eq_true',
      beq_eq_false_iff_ne] at he
    exact he.2
  · intro n hn
    simp only [deleteSelectedNode, h] at hn
    simp only [List.mem_filter, Bool.not_eq_true', beq_eq_false_iff_ne] at hn
    exact hn.2

/-- Witness for C9 at a concrete canvas with an attached edge. -/
theorem deleteSelectedNode_no_dangling_witness :
    CanvasFixtures.twoNodeState.selectedNode = some "node-1" ∧
    (∀ e ∈ (deleteSelectedNode CanvasFixtures.twoNodeState).edges,
        e.source ≠ "node-1" ∧ e.target ≠ "node-1") ∧
    (∀ n ∈ (deleteSelectedNode CanvasFixtures.twoNodeState).nodes,
        n.id ≠ "node-1") :=
  ⟨rfl, deleteSelectedNode_no_dangling CanvasFixtures.twoNodeState "node-1" rfl⟩

/-- C7: every edge object in any payload the editor saves carries
`condition = null`, and an absent condition means the edge is always
traversed by the engine. -/
theorem saved_edges_condition_null (s : CanvasState) (p : JVal)
    (h : (saveWorkflow s).1 = some p) :
    getField p "edges" = some (.arr (s.edges.map edgePayload)) ∧
    (∀ j ∈ s.edges.map edgePayload, getField j "condition" = some .null) ∧
    (∀ e : Engine.Edge, e.condition = none → Engine.edgeOpen e = true) := by
  have hp : p = workflowPayload s := by
    by_cases ht : jsTrim s.workflowName = ""
    · simp [saveWorkflow, ht] at h
    · by_cases hn : s.nodes.length = 0
      · simp [saveWorkflow, ht, hn] at h
      · simp [saveWorkflow, ht, hn] at h
        exact h.symm
  subst hp
  refine ⟨rfl, ?_, ?_⟩
  · intro j hj
    rcases List.mem_map.mp hj with ⟨e, -, rfl⟩
    rfl
  · intro e he
    simp [Engine.edgeOpen, he]

end Canvas

namespace NatStr

theorem decDigits_lt {n : Nat} (h : n < 10) :
    decDigits n = [Nat.digitChar n] := by
  rw [decDigits]
  simp [h]

theorem decDigits_ge {n : Nat} (h : ¬ n < 10) :
    decDigits n = decDigits (n / 10) ++ [Nat.digitChar (n % 10)] := by
  rw [decDigits]
  simp [h]

theorem decDigits_ne_nil (n : Nat) : decDigits n ≠ [] := by
  by_cases h : n < 10
  · rw [decDigits_lt h]
    simp
  · rw [decDigits_ge h]
    simp

/-- `Nat.digitChar` is injective on single digits. -/
theorem digitChar_inj : ∀ m < 10, ∀ n < 10,
    Nat.digitChar m = Nat.digitChar n → m = n := by decide

/-- The structural decimal representation is injective. -/
theorem decDigits_inj (m : Nat) : ∀ n, decDigits m = decDigits n → m = n := by
  induction m using Nat.strong_induction_on with
  | _ m ih =>
    intro n h
    by_cases hm : m < 10 <;> by_cases hn : n < 10
    · rw [decDigits_lt hm, decDigits_lt hn] at h
      exact digitChar_inj m hm n hn (by injection h)
    · rw [decDigits_lt hm, decDigits_ge hn] at h
      have hlen := congrArg List.length h
      have hne := decDigits_ne_nil (n / 10)
      simp at hlen
      cases hd : decDigits (n / 10) with
      | nil => exact absurd hd hne
      | cons c cs => rw [hd] at hlen; simp at hlen
    · rw [decDigits_ge hm, decDigits_lt hn] at h
      have hlen := congrArg List.length h
      have hne := decDigits_ne_nil (m / 10)
      simp at hlen
      cases hd : decDigits (m / 10) with
      | nil => exact absurd hd hne
      | cons c cs => rw [hd] at hlen; simp at hlen
    · rw [decDigits_ge hm, decDigits_ge hn] at h
      obtain ⟨h3, h4⟩ := List.append_inj' h rfl
      have hdiv : m / 10 = n / 10 :=
        ih (m / 10) (Nat.div_lt_self (by omega) (by omega)) (n / 10) h3
      have hmod : m % 10 = n % 10 :=
        digitChar_inj (m % 10) (Nat.mod_lt _ (by omega)) (n % 10)
          (Nat.mod_lt _ (by omega)) (by injection h4)
      omega

/-- Core's fuelled digit printer agrees with the structural one when the fuel
suffices (as it does in `Nat.repr`). -/
theorem toDigitsCore_eq : ∀ fuel n ds, n < fuel →
    Nat.toDigitsCore 10 fuel n ds = decDigits n ++ ds := by
  intro fuel
  induction fuel with
  | zero => intro n ds h; omega
  | succ fuel ih =>
    intro n ds hfuel
    show (if n / 10 = 0 then Nat.digitChar (n % 10) :: ds
          else Nat.toDigitsCore 10 fuel (n / 10) (Nat.digitChar (n % 10) :: ds)) =
        decDigits n ++ ds
    by_cases h0 : n / 10 = 0
    · have hn : n < 10 := by omega
      rw [if_pos h0, decDigits_lt hn, Nat.mod_eq_of_lt hn]
      simp
    · have hn : ¬ n < 10 := by omega
      have hlt : n / 10 < fuel := by
        have := Nat.div_lt_self (show 0 < n by omega) (show 1 < 10 by omega)
        omega
      rw [if_neg h0, ih (n / 10) (Nat.digitChar (n % 10) :: ds) hlt,
        decDigits_ge hn]
      simp

/-- `toString` on `Nat` prints the structural decimal digits. -/
theorem natToString_eq (n : Nat) : toString n = (decDigits n).asString := by
  show Nat.repr n = (decDigits n).asString
  rw [Nat.repr, Nat.toDigits, toDigitsCore_eq (n + 1) n [] (by omega)]
  simp

/-- Decimal printing of naturals is injective. -/
theorem natToString_inj {m n : Nat} (h : toString m = toString n) : m = n := by
  rw [natToString_eq, natToString_eq] at h
  refine decDigits_inj m n ?_
  have : (decDigits m).asString.data = (decDigits n).asString.data := by rw [h]
  simpa [List.asString] using this

end NatStr

namespace Canvas

/-- The generated node ids collide exactly when the `Date.now()` values do. -/
theorem nodeIdOf_inj {m n : Nat} (h : nodeIdOf m = nodeIdOf n) : m = n := by
  unfold nodeIdOf at h
  have hd : ("node-" ++ toString m).data = ("node-" ++ toString n).data := by
    rw [h]
  rw [String.data_append, String.data_append] at hd
  exact NatStr.natToString_inj (String.ext (List.append_cancel_left hd))

/-- The node ids accumulated by a sequence of `addNode` calls. -/
theorem addNodeSeq_ids (calls : List AddCall) :
    ∀ nds : List CanvasNode,
      (addNodeSeq calls nds).map CanvasNode.id =
        nds.map CanvasNode.id ++ calls.map (fun c => nodeIdOf c.now) := by
  induction calls with
  | nil => intro nds; simp [addNodeSeq]
  | cons c cs ih =>
    intro nds
    show (addNodeSeq cs (addNode c.now c.posX c.posY c.modelSel c.ty nds)).map
        CanvasNode.id = _
    rw [ih]
    simp [addNode]

/-- Witness for C7 at a concrete canvas whose save succeeds. -/
theorem saved_edges_condition_null_witness :
    (saveWorkflow CanvasFixtures.twoNodeState).1 =
      some (workflowPayload CanvasFixtures.twoNodeState) ∧
    (∀ j ∈ CanvasFixtures.twoNodeState.edges.map edgePayload,
        getField j "condition" = some .null) :=
  ⟨rfl,
    (saved_edges_condition_null CanvasFixtures.twoNodeState
      (workflowPayload CanvasFixtures.twoNodeState) rfl).2.1⟩

/-- C8 counterexample: two consecutive `addNode` calls whose `Date.now()`
values coincide (same millisecond) put two nodes with the same id
`node-5` into the saved workflow's node list. -/
theorem addNode_same_millisecond_collision :
    (((addNode 5 0 0 "mistral" "executor"
        (addNode 5 0 0 "mistral" "planner" [])).map CanvasNode.id).Nodup
      = False) := by
  simp only [eq_iff_iff, iff_false]
  decide

/-- C8 (amended): node ids assembled by consecutive `addNode` calls are unique
provided the calls' `Date.now()` values are pairwise distinct (the id is
`node-$\x7bDate.now()\x7d`, so calls landing in the same millisecond — and
only those — collide). -/
theorem addNode_ids_unique (calls : List AddCall)
    (h : (calls.map AddCall.now).Nodup) :
    ((addNodeSeq calls []).map CanvasNode.id).Nodup := by
  rw [addNodeSeq_ids calls []]
  have hmap : calls.map (fun c => nodeIdOf c.now) =
      (calls.map AddCall.now).map nodeIdOf := by
    rw [List.map_map]
    rfl
  simpa [hmap] using h.map (fun a b hab => nodeIdOf_inj hab)

/-- Witness for C8 (amended) at two calls one millisecond apart. -/
theorem addNode_ids_unique_witness :
    (([⟨5, 0, 0, "mistral", "planner"⟩,
       ⟨6, 0, 0, "mistral", "executor"⟩] : List AddCall).map AddCall.now).Nodup ∧
    ((addNodeSeq [⟨5, 0, 0, "mistral", "planner"⟩,
       ⟨6, 0, 0, "mistral", "executor"⟩] []).map CanvasNode.id).Nodup :=
  ⟨by decide,
    addNode_ids_unique
      [⟨5, 0, 0, "mistral", "planner"⟩, ⟨6, 0, 0, "mistral", "executor"⟩]
      (by decide)⟩

/-- Helper: a payload `saveWorkflow` actually sends is `workflowPayload`. -/
theorem saveWorkflow_emits (s : CanvasState) (p : JVal)
    (h : (saveWorkflow s).1 = some p) : p = workflowPayload s := by
  by_cases ht : jsTrim s.workflowName = ""
  · simp [saveWorkflow, ht] at h
  · by_cases hn : s.nodes.length = 0
    · simp [saveWorkflow, ht, hn] at h
    · simp [saveWorkflow, ht, hn] at h
      exact h.symm

/-- C6 counterexample: at a concrete canvas the payload `saveWorkflow` sends
does not have the spec's `\x7bid, name, description, nodes: [\x7bid,
agent_type, model, instructions\x7d], …\x7d` shape — the editor's payload has
no top-level `id`, and its node objects carry the extra fields `type` and
`position`. -/
theorem saveWorkflow_spec_shape_cex :
    (saveWorkflow CanvasFixtures.twoNodeState).1 =
      some (workflowPayload CanvasFixtures.twoNodeState) ∧
    matchesSpecShape (workflowPayload CanvasFixtures.twoNodeState) = false :=
  ⟨rfl, rfl⟩

/-- C6 (amended): every payload the editor saves has top-level fields
`name, description, nodes, edges` (the workflow id is assigned by the server,
not sent), each node object exactly the fields
`id, type, agent_type, model, instructions, position`, and each edge object
exactly the fields `id, source, target, condition`. -/
theorem saveWorkflow_payload_shape (s : CanvasState) (p : JVal)
    (h : (saveWorkflow s).1 = some p) :
    fieldNames p = ["name", "description", "nodes", "edges"] ∧
    getField p "nodes" = some (.arr (s.nodes.map nodePayload)) ∧
    getField p "edges" = some (.arr (s.edges.map edgePayload)) ∧
    (∀ n : CanvasNode, fieldNames (nodePayload n) =
      ["id", "type", "agent_type", "model", "instructions", "position"]) ∧
    (∀ e : CanvasEdge, fieldNames (edgePayload e) =
      ["id", "source", "target", "condition"]) := by
  rw [saveWorkflow_emits s p h]
  exact ⟨rfl, rfl, rfl, fun n => rfl, fun e => rfl⟩

/-- Witness for C6 (amended) at a concrete canvas whose save succeeds. -/
theorem saveWorkflow_payload_shape_witness :
    (saveWorkflow CanvasFixtures.twoNodeState).1 =
      some (workflowPayload CanvasFixtures.twoNodeState) ∧
    fieldNames (workflowPayload CanvasFixtures.twoNodeState) =
      ["name", "description", "nodes", "edges"] :=
  ⟨rfl,
    (saveWorkflow_payload_shape CanvasFixtures.twoNodeState
      (workflowPayload CanvasFixtures.twoNodeState) rfl).1⟩

end Canvas

namespace Engine

theorem firstDup_eq_none {l : List Nat} : firstDup l = none ↔ l.Nodup := by
  induction l with
  | nil => simp [firstDup]
  | cons x xs ih =>
    by_cases h : x ∈ xs
    · simp [firstDup, h]
    · simp [firstDup, h, ih]

theorem firstDangling_eq_none {ids : List Nat} {es : List Edge} :
    firstDangling ids es = none ↔
      ∀ e ∈ es, e.source ∈ ids ∧ e.target ∈ ids := by
  induction es with
  | nil => simp [firstDangling]
  | cons e es ih =>
    by_cases h : e.source ∈ ids ∧ e.target ∈ ids
    · rw [firstDangling, if_pos h, ih]
      simp [List.forall_mem_cons, h]
    · rw [firstDangling, if_neg h]
      constructor
      · intro hc
        exact (Option.some_ne_none _ hc).elim
      · intro hall
        exact absurd (hall e (List.mem_cons_self e es)) h

/-- Along any nonempty `r`-path from `a` to `b` one can collect a list
containing `b` in which every element has an `r`-predecessor in the list or
equal to `a`. -/
theorem transGen_closed_list {r : Nat → Nat → Prop} {a b : Nat}
    (h : Relation.TransGen r a b) :
    ∃ C : List Nat, b ∈ C ∧ ∀ v ∈ C, ∃ u, (u ∈ C ∨ u = a) ∧ r u v := by
  induction h with
  | single hab =>
    refine ⟨[_], List.mem_singleton.mpr rfl, ?_⟩
    intro v hv
    rw [List.mem_singleton] at hv
    subst hv
    exact ⟨a, Or.inr rfl, hab⟩
  | tail hab hbc ih =>
    obtain ⟨C, hbC, hC⟩ := ih
    refine ⟨_ :: C, List.mem_cons_self _ _, ?_⟩
    intro v hv
    rcases List.mem_cons.mp hv with rfl | hvC
    · exact ⟨_, Or.inl (List.mem_cons_of_mem _ hbC), hbc⟩
    · obtain ⟨u, hu, hr⟩ := hC v hvC
      rcases hu with huC | rfl
      · exact ⟨u, Or.inl (List.mem_cons_of_mem _ huC), hr⟩
      · exact ⟨u, Or.inr rfl, hr⟩

/-- A cyclic workflow graph yields a nonempty list of nodes each of which has
an in-list predecessor edge. -/
theorem hasCycle_closed_list {w : Workflow} (h : hasCycle w) :
    ∃ C : List Nat, C ≠ [] ∧
      ∀ v ∈ C, ∃ e ∈ w.edges, e.target = v ∧ e.source ∈ C := by
  obtain ⟨a, ha⟩ := h
  obtain ⟨C, haC, hC⟩ := transGen_closed_list ha
  refine ⟨C, by rintro rfl; exact (List.not_mem_nil a) haC, ?_⟩
  intro v hv
  obtain ⟨u, hu, hr⟩ := hC v hv
  obtain ⟨e, he, hsrc, htgt⟩ := hr
  rcases hu with huC | rfl
  · exact ⟨e, he, htgt, by rw [hsrc]; exact huC⟩
  · exact ⟨e, he, htgt, by rw [hsrc]; exact haC⟩

/-- The ordering loop can never clear a set of nodes each of which keeps an
unprocessed predecessor: it ends in the stuck (cycle) case. -/
theorem kahn_stuck {edges : List Edge} {C : List Nat} (hne : C ≠ [])
    (hclosed : ∀ v ∈ C, ∃ e ∈ edges, e.target = v ∧ e.source ∈ C) :
    ∀ fuel remaining, (∀ v ∈ C, v ∈ remaining) →
      ∃ stuck, kahn edges fuel remaining = .error stuck := by
  have hremne : ∀ remaining : List Nat, (∀ v ∈ C, v ∈ remaining) →
      remaining.isEmpty = false := by
    intro remaining hsub
    obtain ⟨v, hv⟩ := List.exists_mem_of_ne_nil C hne
    rcases remaining with _ | ⟨x, xs⟩
    · exact absurd (hsub v hv) (List.not_mem_nil v)
    · rfl
  intro fuel
  induction fuel with
  | zero =>
    intro remaining hsub
    rw [kahn, hremne remaining hsub]
    exact ⟨remaining, rfl⟩
  | succ fuel ih =>
    intro remaining hsub
    rw [kahn, hremne remaining hsub]
    simp only [Bool.false_eq_true, if_false]
    cases hmin : (roots edges remaining).min? with
    | none => exact ⟨remaining, rfl⟩
    | some v =>
      have hvroots : v ∈ roots edges remaining :=
        (List.min?_eq_some_iff'.mp hmin).1
      have hvroot : isRoot edges remaining v = true :=
        (List.mem_filter.mp hvroots).2
      have hvC : v ∉ C := by
        intro hvC
        obtain ⟨e, he, htgt, hsrc⟩ := hclosed v hvC
        have hall := (List.all_eq_true.mp hvroot) e he
        rw [htgt] at hall
        simp at hall
        exact hall (hsub e.source hsrc)
      have hsub' : ∀ u ∈ C, u ∈ remaining.erase v := by
        intro u hu
        refine (List.mem_erase_of_ne ?_).mpr (hsub u hu)
        rintro rfl
        exact hvC hu
      obtain ⟨stuck, hstuck⟩ := ih (remaining.erase v) hsub'
      exact ⟨stuck, by simp [hstuck]⟩

/-- C1: a workflow whose node/edge graph contains a cycle always fails
validation — with `CycleDetected` whenever the earlier duplicate-id and
dangling-edge checks pass — and no Execution record is ever created from it:
acyclicity is enforced before any Execution is allowed to start. -/
theorem cyclic_workflow_rejected (w : Workflow) (hcyc : hasCycle w) :
    (∀ order, validate w ≠ .ok order) ∧
    (∀ registry input client cancelFrom execId ex,
        startExecution registry w input client cancelFrom execId ≠ .ok ex) ∧
    ((nodeIds w).Nodup →
      (∀ e ∈ w.edges, e.source ∈ nodeIds w ∧ e.target ∈ nodeIds w) →
      ∃ i, validate w = .error (.CycleDetected i)) := by
  have main : firstDup (nodeIds w) = none →
      firstDangling (nodeIds w) w.edges = none →
      ∃ i, validate w = .error (.CycleDetected i) := by
    intro hdup hdang
    obtain ⟨C, hne, hclosed⟩ := hasCycle_closed_list hcyc
    have hsub : ∀ v ∈ C, v ∈ nodeIds w := by
      intro v hv
      obtain ⟨e, he, htgt, -⟩ := hclosed v hv
      have hmem := (firstDangling_eq_none.mp hdang) e he
      rw [← htgt]
      exact hmem.2
    obtain ⟨stuck, hstuck⟩ :=
      kahn_stuck hne hclosed (nodeIds w).length (nodeIds w) hsub
    exact ⟨stuck.min?.getD 0, by simp [validate, hdup, hdang, hstuck]⟩
  have notok : ∀ order, validate w ≠ .ok order := by
    intro order hok
    cases hdup : firstDup (nodeIds w) with
    | some i => simp [validate, hdup] at hok
    | none =>
      cases hdang : firstDangling (nodeIds w) w.edges with
      | some i => simp [validate, hdup, hdang] at hok
      | none =>
        obtain ⟨i, hcd⟩ := main hdup hdang
        rw [hcd] at hok
        cases hok
  refine ⟨notok, ?_, ?_⟩
  · intro registry input client cancelFrom execId ex hok
    unfold startExecution at hok
    cases hv : validate w with
    | error e => rw [hv] at hok; cases hok
    | ok order => exact notok order hv
  · intro hnodup hmem
    exact main (firstDup_eq_none.mpr hnodup) (firstDangling_eq_none.mpr hmem)

/-- Witness for C1 at the Scenario C fixture `edges=[A→B, B→A]`: validation
rejects with `CycleDetected` and no Execution is created. -/
theorem cyclic_workflow_rejected_witness :
    hasCycle Fixtures.wCyc ∧
    validate Fixtures.wCyc = .error (.CycleDetected 1) ∧
    (∀ order, validate Fixtures.wCyc ≠ .ok order) := by
  have h12 : edgeRel Fixtures.wCyc 1 2 :=
    ⟨{ id := 100, source := 1, target := 2, condition := none },
      by decide, rfl, rfl⟩
  have h21 : edgeRel Fixtures.wCyc 2 1 :=
    ⟨{ id := 101, source := 2, target := 1, condition := none },
      by decide, rfl, rfl⟩
  have hcyc : hasCycle Fixtures.wCyc :=
    ⟨1, Relation.TransGen.tail (Relation.TransGen.single h12) h21⟩
  exact ⟨hcyc, by rfl, (cyclic_workflow_rejected Fixtures.wCyc hcyc).1⟩

theorem contains_of_mem {l : List Nat} {a : Nat} (h : a ∈ l) :
    l.contains a = true := by
  simpa [List.contains, List.elem_iff] using h

theorem contains_congr {rem rem' : List Nat}
    (hR : ∀ u, u ∈ rem ↔ u ∈ rem') (a : Nat) :
    rem.contains a = rem'.contains a := by
  rw [Bool.eq_iff_iff]
  simp only [List.contains, List.elem_iff]
  exact hR a

theorem isRoot_congr {edges edges' : List Edge} {rem rem' : List Nat}
    (hE : ∀ e, e ∈ edges ↔ e ∈ edges') (hR : ∀ u, u ∈ rem ↔ u ∈ rem')
    (v : Nat) : isRoot edges rem v = isRoot edges' rem' v := by
  rw [Bool.eq_iff_iff]
  unfold isRoot
  simp only [List.all_eq_true]
  constructor
  · intro h e he
    rw [← contains_congr hR e.source]
    exact h e ((hE e).mpr he)
  · intro h e he
    rw [contains_congr hR e.source]
    exact h e ((hE e).mp he)

theorem min?_perm {l l' : List Nat} (h : l.Perm l') : l.min? = l'.min? := by
  cases hm : l.min? with
  | none =>
    rw [List.min?_eq_none_iff] at hm
    subst hm
    rw [h.symm.eq_nil]
    rfl
  | some a =>
    obtain ⟨hmem, hle⟩ := List.min?_eq_some_iff'.mp hm
    exact (List.min?_eq_some_iff'.mpr
      ⟨h.mem_iff.mp hmem, fun b hb => hle b (h.mem_iff.mpr hb)⟩).symm

theorem roots_min_congr {edges edges' : List Edge} {rem rem' : List Nat}
    (hE : ∀ e, e ∈ edges ↔ e ∈ edges') (hperm : rem.Perm rem') :
    (roots edges rem).min? = (roots edges' rem').min? := by
  have hR : ∀ u, u ∈ rem ↔ u ∈ rem' := fun u => hperm.mem_iff
  have h1 : (roots edges rem).Perm (rem'.filter (isRoot edges rem)) :=
    hperm.filter _
  have h2 : rem'.filter (isRoot edges rem) = roots edges' rem' :=
    List.filter_congr (fun x _ => isRoot_congr hE hR x)
  rw [min?_perm h1, h2]

/-- A successful ordering emits a permutation of the remaining nodes. -/
theorem kahn_ok_perm {edges : List Edge} :
    ∀ fuel remaining order, kahn edges fuel remaining = .ok order →
      order.Perm remaining := by
  intro fuel
  induction fuel with
  | zero =>
    intro remaining order h
    rw [kahn] at h
    rcases remaining with _ | ⟨x, xs⟩
    · simp at h
      subst h
      rfl
    · simp at h
  | succ fuel ih =>
    intro remaining order h
    rw [kahn] at h
    rcases remaining with _ | ⟨x, xs⟩
    · simp at h
      subst h
      rfl
    · simp only [List.isEmpty_cons, Bool.false_eq_true, if_false] at h
      cases hmin : (roots edges (x :: xs)).min? with
      | none => rw [hmin] at h; cases h
      | some v =>
        rw [hmin] at h
        cases hres : kahn edges fuel ((x :: xs).erase v) with
        | error r => simp [hres] at h
        | ok order' =>
          simp only [hres] at h
          injection h with h
          subst h
          have hvmem : v ∈ x :: xs :=
            (List.mem_filter.mp (List.min?_eq_some_iff'.mp hmin).1).1
          exact ((ih _ order' hres).cons v).trans
            (List.perm_cons_erase hvmem).symm

/-- A successful ordering puts every edge's source before its target. -/
theorem kahn_ok_respects {edges : List Edge} :
    ∀ fuel remaining order, kahn edges fuel remaining = .ok order →
      ∀ e ∈ edges, e.source ∈ remaining → e.target ∈ remaining →
        beforeIn e.source e.target order = true := by
  intro fuel
  induction fuel with
  | zero =>
    intro remaining order h e he hs ht
    rcases remaining with _ | ⟨x, xs⟩
    · exact absurd hs (List.not_mem_nil _)
    · rw [kahn] at h
      simp at h
  | succ fuel ih =>
    intro remaining order h e he hs ht
    rw [kahn] at h
    rcases remaining with _ | ⟨x, xs⟩
    · exact absurd hs (List.not_mem_nil _)
    · simp only [List.isEmpty_cons, Bool.false_eq_true, if_false] at h
      cases hmin : (roots edges (x :: xs)).min? with
      | none => rw [hmin] at h; cases h
      | some v =>
        rw [hmin] at h
        cases hres : kahn edges fuel ((x :: xs).erase v) with
        | error r => simp [hres] at h
        | ok order' =>
          simp only [hres] at h
          injection h with h
          subst h
          have hvroot : isRoot edges (x :: xs) v = true :=
            (List.mem_filter.mp (List.min?_eq_some_iff'.mp hmin).1).2
          have hperm : order'.Perm ((x :: xs).erase v) :=
            kahn_ok_perm fuel _ order' hres
          by_cases hvt : e.target = v
          · exfalso
            have hall := (List.all_eq_true.mp hvroot) e he
            rw [hvt] at hall
            simp at hall
            rcases List.mem_cons.mp hs with h1 | h1
            · exact hall.1 h1
            · exact hall.2 h1
          · have ht' : e.target ∈ (x :: xs).erase v :=
              (List.mem_erase_of_ne hvt).mpr ht
            have htord : e.target ∈ order' := hperm.mem_iff.mpr ht'
            by_cases hsv : e.source = v
            · rw [beforeIn]
              rw [hsv]
              simp [contains_of_mem htord]
              exact Or.inl htord
            · have hs' : e.source ∈ (x :: xs).erase v :=
                (List.mem_erase_of_ne hsv).mpr hs
              have hbefore := ih _ order' hres e he hs' ht'
              rw [beforeIn, hbefore]
              simp

/-- A successful ordering is canonical: it only depends on the set of edges
and the multiset of remaining nodes. -/
theorem kahn_ok_congr {edges edges' : List Edge}
    (hE : ∀ e, e ∈ edges ↔ e ∈ edges') :
    ∀ fuel remaining remaining' order, remaining.Perm remaining' →
      kahn edges fuel remaining = .ok order →
      kahn edges' fuel remaining' = .ok order := by
  intro fuel
  induction fuel with
  | zero =>
    intro rem rem' order hperm h
    rw [kahn] at h ⊢
    rcases rem with _ | ⟨x, xs⟩
    · rw [hperm.symm.eq_nil]
      simpa using h
    · simp at h
  | succ fuel ih =>
    intro rem rem' order hperm h
    rw [kahn] at h ⊢
    rcases rem with _ | ⟨x, xs⟩
    · rw [hperm.symm.eq_nil]
      simpa using h
    · rcases hrem' : rem' with _ | ⟨y, ys⟩
      · rw [hrem'] at hperm
        have := hperm.eq_nil
        cases this
      · rw [hrem'] at hperm
        simp only [List.isEmpty_cons, Bool.false_eq_true, if_false] at h ⊢
        have hmin := roots_min_congr hE hperm
        cases hv : (roots edges (x :: xs)).min? with
        | none => rw [hv] at h; cases h
        | some v =>
          rw [hv] at h hmin
          rw [← hmin]
          cases hres : kahn edges fuel ((x :: xs).erase v) with
          | error r => simp [hres] at h
          | ok order'' =>
            simp only [hres] at h
            injection h with h
            subst h
            simp [ih ((x :: xs).erase v) ((y :: ys).erase v) order''
              (hperm.erase v) hres]

/-- Unpack a successful validation into its three passed checks. -/
theorem validate_ok_elim {w : Workflow} {order : List Nat}
    (h : validate w = .ok order) :
    firstDup (nodeIds w) = none ∧
    firstDangling (nodeIds w) w.edges = none ∧
    kahn w.edges (nodeIds w).length (nodeIds w) = .ok order := by
  unfold validate at h
  cases hdup : firstDup (nodeIds w) with
  | some i => rw [hdup] at h; cases h
  | none =>
    rw [hdup] at h
    cases hdang : firstDangling (nodeIds w) w.edges with
    | some i => rw [hdang] at h; cases h
    | none =>
      rw [hdang] at h
      cases hk : kahn w.edges (nodeIds w).length (nodeIds w) with
      | error s => rw [hk] at h; cases h
      | ok o =>
        rw [hk] at h
        injection h with h
        subst h
        exact ⟨rfl, rfl, rfl⟩

/-- C2: for every validated workflow, `topologicalOrder` returns the validated
order, which visits every node exactly once (a duplicate-free permutation of
the node ids), places every node after all of its predecessors, and is
canonical: any workflow with the same node ids (in any authoring order) and
the same edge set validates to the very same order. -/
theorem topologicalOrder_correct (w : Workflow) (order : List Nat)
    (h : validate w = .ok order) :
    topologicalOrder w = some order ∧
    order.Perm (nodeIds w) ∧
    order.Nodup ∧
    (∀ v ∈ nodeIds w, order.count v = 1) ∧
    (∀ e ∈ w.edges, beforeIn e.source e.target order = true) ∧
    (∀ w' : Workflow, (nodeIds w).Perm (nodeIds w') →
      (∀ e, e ∈ w.edges ↔ e ∈ w'.edges) →
      validate w' = .ok order) := by
  obtain ⟨hdup, hdang, hk⟩ := validate_ok_elim h
  have hperm : order.Perm (nodeIds w) := kahn_ok_perm _ _ _ hk
  have hnodup : order.Nodup := hperm.symm.nodup (firstDup_eq_none.mp hdup)
  refine ⟨?_, hperm, hnodup, ?_, ?_, ?_⟩
  · rw [topologicalOrder, h]
    rfl
  · intro v hv
    exact List.count_eq_one_of_mem hnodup (hperm.mem_iff.mpr hv)
  · intro e he
    obtain ⟨hs, ht⟩ := (firstDangling_eq_none.mp hdang) e he
    exact kahn_ok_respects _ _ _ hk e he hs ht
  · intro w' hids hE
    have hdup' : firstDup (nodeIds w') = none :=
      firstDup_eq_none.mpr (hids.nodup (firstDup_eq_none.mp hdup))
    have hdang' : firstDangling (nodeIds w') w'.edges = none := by
      refine firstDangling_eq_none.mpr ?_
      intro e he
      obtain ⟨hs, ht⟩ := (firstDangling_eq_none.mp hdang) e ((hE e).mpr he)
      exact ⟨hids.mem_iff.mp hs, hids.mem_iff.mp ht⟩
    have hk' : kahn w'.edges (nodeIds w').length (nodeIds w') = .ok order := by
      rw [← hids.length_eq]
      exact kahn_ok_congr hE (nodeIds w).length _ _ order hids hk
    simp [validate, hdup', hdang', hk']

/-- C3: a transient `ModelRuntimeError` (`Unreachable` or `Timeout`) on the
first attempt is retried exactly once (two attempts total, never a third); the
retry's success yields the step result and its failure is surfaced as the
dispatch failure.  `InvalidModel` is never retried (one attempt), an
unregistered agent type fails with `UnknownAgentType` without any backend call
(zero attempts), and any dispatch failure — surfaced transient failure,
`InvalidModel`, or `UnknownAgentType` — makes the Executor append the failed
Step and fail the run at that node. -/
theorem dispatch_retry_policy (registry : List String) (n : Node)
    (client : Nat → ModelOutcome) (hreg : n.agentType ∈ registry) :
    ((client 0 = .unreachable ∨ client 0 = .timeout) →
      (dispatch registry n client).2 = 2 ∧
      (∀ t, client 1 = .success t →
        (dispatch registry n client).1 = .ok t) ∧
      (client 1 = .unreachable →
        (dispatch registry n client).1 = .failed .unreachable) ∧
      (client 1 = .timeout →
        (dispatch registry n client).1 = .failed .timeout) ∧
      (client 1 = .invalidModel →
        (dispatch registry n client).1 = .failed .invalidModel)) ∧
    (client 0 = .invalidModel →
      dispatch registry n client = (.failed .invalidModel, 1)) ∧
    (∀ m : Node, m.agentType ∉ registry →
      ∀ cl : Nat → ModelOutcome, dispatch registry m cl = (.unknownAgent, 0)) ∧
    (∀ (nodes : List Node) (oracle : Nat → Nat → ModelOutcome) (v : Nat)
        (rest : List Nat) (idx : Nat) (acc : List Step) (n2 : Node)
        (k : FailKind),
      nodes.find? (fun m => m.id == v) = some n2 →
      (dispatch registry n2 (oracle v)).1 = .failed k →
      runLoop registry nodes oracle none (v :: rest) idx acc =
        (.failed, acc ++ [mkErrorStep v n2.agentType (.modelError k)])) ∧
    (∀ (nodes : List Node) (oracle : Nat → Nat → ModelOutcome) (v : Nat)
        (rest : List Nat) (idx : Nat) (acc : List Step) (n2 : Node),
      nodes.find? (fun m => m.id == v) = some n2 →
      (dispatch registry n2 (oracle v)).1 = .unknownAgent →
      runLoop registry nodes oracle none (v :: rest) idx acc =
        (.failed, acc ++ [mkErrorStep v n2.agentType .unknownAgentType])) := by
  refine ⟨?_, ?_, ?_, ?_, ?_⟩
  · intro h0
    have hd : dispatch registry n client = (outcomeToResult (client 1), 2) := by
      rcases h0 with h0 | h0 <;> simp [dispatch, hreg, h0]
    rw [hd]
    refine ⟨rfl, ?_, ?_, ?_, ?_⟩
    · intro t ht
      rw [ht]
      rfl
    · intro h1
      rw [h1]
      rfl
    · intro h1
      rw [h1]
      rfl
    · intro h1
      rw [h1]
      rfl
  · intro h0
    simp [dispatch, hreg, h0]
  · intro m hm cl
    simp [dispatch, hm]
  · intro nodes oracle v rest idx acc n2 k hfind hdisp
    rw [runLoop]
    simp [cancelRequested, hfind, hdisp]
  · intro nodes oracle v rest idx acc n2 hfind hdisp
    rw [runLoop]
    simp [cancelRequested, hfind, hdisp]

/-- Witness for C3 at Scenario B's node `E`: `Unreachable` on the original
attempt and on the single retry gives two attempts and a surfaced failure. -/
theorem dispatch_retry_policy_witness :
    (("executor" : String) ∈ Fixtures.registryPER) ∧
    Fixtures.clientDown 0 = .unreachable ∧
    (dispatch Fixtures.registryPER
      { id := 2, agentType := "executor", model := "llama3",
        instructions := "act" } Fixtures.clientDown).2 = 2 ∧
    (dispatch Fixtures.registryPER
      { id := 2, agentType := "executor", model := "llama3",
        instructions := "act" } Fixtures.clientDown).1 = .failed .unreachable := by
  have hreg : ("executor" : String) ∈ Fixtures.registryPER := by decide
  obtain ⟨h2, -, hu, -, -⟩ := (dispatch_retry_policy Fixtures.registryPER
    { id := 2, agentType := "executor", model := "llama3",
      instructions := "act" } Fixtures.clientDown hreg).1 (Or.inl rfl)
  exact ⟨hreg, rfl, h2, hu rfl⟩

/-- Witness for C2 at the Scenario A chain `P → E → R`. -/
theorem topologicalOrder_correct_witness :
    validate Fixtures.wChain = .ok [1, 2, 3] ∧
    topologicalOrder Fixtures.wChain = some [1, 2, 3] ∧
    [1, 2, 3].Perm (nodeIds Fixtures.wChain) ∧
    (∀ e ∈ Fixtures.wChain.edges, beforeIn e.source e.target [1, 2, 3] = true) := by
  have h : validate Fixtures.wChain = .ok [1, 2, 3] := by rfl
  obtain ⟨h1, h2, -, -, h5, -⟩ :=
    topologicalOrder_correct Fixtures.wChain [1, 2, 3] h
  exact ⟨h, h1, h2, h5⟩

/-- Equation: the loop on an empty order completes immediately. -/
theorem runLoop_nil (registry : List String) (nodes : List Node)
    (client : Nat → Nat → ModelOutcome) (cancelFrom : Option Nat)
    (idx : Nat) (acc : List Step) :
    runLoop registry nodes client cancelFrom [] idx acc = (.completed, acc) := by
  rw [runLoop]

/-- Equation: a set cancellation flag stops the loop before dispatch. -/
theorem runLoop_cancel {cancelFrom : Option Nat} {idx : Nat}
    (registry : List String) (nodes : List Node)
    (client : Nat → Nat → ModelOutcome) (v : Nat) (rest : List Nat)
    (acc : List Step) (hc : cancelRequested cancelFrom idx = true) :
    runLoop registry nodes client cancelFrom (v :: rest) idx acc =
      (.canceled, acc) := by
  rw [runLoop]
  simp [hc]

/-- Equation: a node id with no matching node is skipped. -/
theorem runLoop_skip {nodes : List Node} {cancelFrom : Option Nat} {idx : Nat}
    {v : Nat} (registry : List String) (client : Nat → Nat → ModelOutcome)
    (rest : List Nat) (acc : List Step)
    (hc : cancelRequested cancelFrom idx = false)
    (hfd : nodes.find? (fun n => n.id == v) = none) :
    runLoop registry nodes client cancelFrom (v :: rest) idx acc =
      runLoop registry nodes client cancelFrom rest (idx + 1) acc := by
  rw [runLoop]
  simp [hc, hfd]

/-- Equation: a successful dispatch appends the success Step and continues. -/
theorem runLoop_ok {registry : List String} {nodes : List Node}
    {client : Nat → Nat → ModelOutcome} {cancelFrom : Option Nat} {idx : Nat}
    {v : Nat} {n : Node} {t : String} (rest : List Nat) (acc : List Step)
    (hc : cancelRequested cancelFrom idx = false)
    (hfd : nodes.find? (fun m => m.id == v) = some n)
    (hdisp : (dispatch registry n (client v)).1 = .ok t) :
    runLoop registry nodes client cancelFrom (v :: rest) idx acc =
      runLoop registry nodes client cancelFrom rest (idx + 1)
        (acc ++ [mkSuccessStep v n.agentType t]) := by
  rw [runLoop]
  simp [hc, hfd, hdisp]

/-- Equation: a failed dispatch appends the failed Step and stops in
`Failed`. -/
theorem runLoop_failed {registry : List String} {nodes : List Node}
    {client : Nat → Nat → ModelOutcome} {cancelFrom : Option Nat} {idx : Nat}
    {v : Nat} {n : Node} {k : FailKind} (rest : List Nat) (acc : List Step)
    (hc : cancelRequested cancelFrom idx = false)
    (hfd : nodes.find? (fun m => m.id == v) = some n)
    (hdisp : (dispatch registry n (client v)).1 = .failed k) :
    runLoop registry nodes client cancelFrom (v :: rest) idx acc =
      (.failed, acc ++ [mkErrorStep v n.agentType (.modelError k)]) := by
  rw [runLoop]
  simp [hc, hfd, hdisp]

/-- Equation: an unknown agent type appends the failed Step and stops in
`Failed`. -/
theorem runLoop_unknown {registry : List String} {nodes : List Node}
    {client : Nat → Nat → ModelOutcome} {cancelFrom : Option Nat} {idx : Nat}
    {v : Nat} {n : Node} (rest : List Nat) (acc : List Step)
    (hc : cancelRequested cancelFrom idx = false)
    (hfd : nodes.find? (fun m => m.id == v) = some n)
    (hdisp : (dispatch registry n (client v)).1 = .unknownAgent) :
    runLoop registry nodes client cancelFrom (v :: rest) idx acc =
      (.failed, acc ++ [mkErrorStep v n.agentType .unknownAgentType]) := by
  rw [runLoop]
  simp [hc, hfd, hdisp]

/-- Equation: the snapshot trace on an empty order. -/
theorem loopTrace_nil (registry : List String) (nodes : List Node)
    (client : Nat → Nat → ModelOutcome) (cancelFrom : Option Nat)
    (idx : Nat) (acc : List Step) :
    loopTrace registry nodes client cancelFrom [] idx acc =
      [(.completed, acc)] := by
  rw [loopTrace]

/-- Equation: the snapshot trace under a set cancellation flag. -/
theorem loopTrace_cancel {cancelFrom : Option Nat} {idx : Nat}
    (registry : List String) (nodes : List Node)
    (client : Nat → Nat → ModelOutcome) (v : Nat) (rest : List Nat)
    (acc : List Step) (hc : cancelRequested cancelFrom idx = true) :
    loopTrace registry nodes client cancelFrom (v :: rest) idx acc =
      [(.canceled, acc)] := by
  rw [loopTrace]
  simp [hc]

/-- Equation: the snapshot trace skips a node id with no matching node. -/
theorem loopTrace_skip {nodes : List Node} {cancelFrom : Option Nat}
    {idx : Nat} {v : Nat} (registry : List String)
    (client : Nat → Nat → ModelOutcome) (rest : List Nat) (acc : List Step)
    (hc : cancelRequested cancelFrom idx = false)
    (hfd : nodes.find? (fun n => n.id == v) = none) :
    loopTrace registry nodes client cancelFrom (v :: rest) idx acc =
      loopTrace registry nodes client cancelFrom rest (idx + 1) acc := by
  rw [loopTrace]
  simp [hc, hfd]

/-- Equation: the snapshot trace records a success Step and continues. -/
theorem loopTrace_ok {registry : List String} {nodes : List Node}
    {client : Nat → Nat → ModelOutcome} {cancelFrom : Option Nat} {idx : Nat}
    {v : Nat} {n : Node} {t : String} (rest : List Nat) (acc : List Step)
    (hc : cancelRequested cancelFrom idx = false)
    (hfd : nodes.find? (fun m => m.id == v) = some n)
    (hdisp : (dispatch registry n (client v)).1 = .ok t) :
    loopTrace registry nodes client cancelFrom (v :: rest) idx acc =
      (.running, acc ++ [mkSuccessStep v n.agentType t]) ::
        loopTrace registry nodes client cancelFrom rest (idx + 1)
          (acc ++ [mkSuccessStep v n.agentType t]) := by
  rw [loopTrace]
  simp [hc, hfd, hdisp]

/-- Equation: the snapshot trace records the failed Step and stops. -/
theorem loopTrace_failed {registry : List String} {nodes : List Node}
    {client : Nat → Nat → ModelOutcome} {cancelFrom : Option Nat} {idx : Nat}
    {v : Nat} {n : Node} {k : FailKind} (rest : List Nat) (acc : List Step)
    (hc : cancelRequested cancelFrom idx = false)
    (hfd : nodes.find? (fun m => m.id == v) = some n)
    (hdisp : (dispatch registry n (client v)).1 = .failed k) :
    loopTrace registry nodes client cancelFrom (v :: rest) idx acc =
      [(.failed, acc ++ [mkErrorStep v n.agentType (.modelError k)])] := by
  rw [loopTrace]
  simp [hc, hfd, hdisp]

/-- Equation: the snapshot trace on an unknown agent type. -/
theorem loopTrace_unknown {registry : List String} {nodes : List Node}
    {client : Nat → Nat → ModelOutcome} {cancelFrom : Option Nat} {idx : Nat}
    {v : Nat} {n : Node} (rest : List Nat) (acc : List Step)
    (hc : cancelRequested cancelFrom idx = false)
    (hfd : nodes.find? (fun m => m.id == v) = some n)
    (hdisp : (dispatch registry n (client v)).1 = .unknownAgent) :
    loopTrace registry nodes client cancelFrom (v :: rest) idx acc =
      [(.failed, acc ++ [mkErrorStep v n.agentType .unknownAgentType])] := by
  rw [loopTrace]
  simp [hc, hfd, hdisp]

/-- The loop's snapshot list decomposes as running snapshots followed by one
terminal snapshot, which is exactly the loop's final state. -/
theorem loopTrace_shape (registry : List String) (nodes : List Node)
    (client : Nat → Nat → ModelOutcome) (cancelFrom : Option Nat) :
    ∀ order idx acc, ∃ front last,
      loopTrace registry nodes client cancelFrom order idx acc =
        front ++ [last] ∧
      (∀ p ∈ front, p.1 = ExecStatus.running) ∧
      last.1.isTerminal = true ∧
      last = runLoop registry nodes client cancelFrom order idx acc := by
  intro order
  induction order with
  | nil =>
    intro idx acc
    rw [loopTrace_nil, runLoop_nil]
    exact ⟨[], (.completed, acc), rfl, by simp, rfl, rfl⟩
  | cons v rest ih =>
    intro idx acc
    cases hc : cancelRequested cancelFrom idx with
    | true =>
      rw [loopTrace_cancel registry nodes client v rest acc hc,
        runLoop_cancel registry nodes client v rest acc hc]
      exact ⟨[], (.canceled, acc), rfl, by simp, rfl, rfl⟩
    | false =>
      cases hfd : nodes.find? (fun n => n.id == v) with
      | none =>
        rw [loopTrace_skip registry client rest acc hc hfd,
          runLoop_skip registry client rest acc hc hfd]
        exact ih (idx + 1) acc
      | some n =>
        cases hdisp : (dispatch registry n (client v)).1 with
        | ok t =>
          rw [loopTrace_ok rest acc hc hfd hdisp,
            runLoop_ok rest acc hc hfd hdisp]
          obtain ⟨front, last, heq, hfront, hterm, hlast⟩ :=
            ih (idx + 1) (acc ++ [mkSuccessStep v n.agentType t])
          refine ⟨(.running, acc ++ [mkSuccessStep v n.agentType t]) :: front,
            last, by rw [heq]; rfl, ?_, hterm, hlast⟩
          intro p hp
          rcases List.mem_cons.mp hp with rfl | hp
          · rfl
          · exact hfront p hp
        | failed k =>
          rw [loopTrace_failed rest acc hc hfd hdisp,
            runLoop_failed rest acc hc hfd hdisp]
          exact ⟨[], (.failed, acc ++ [mkErrorStep v n.agentType (.modelError k)]),
            rfl, by simp, rfl, rfl⟩
        | unknownAgent =>
          rw [loopTrace_unknown rest acc hc hfd hdisp,
            runLoop_unknown rest acc hc hfd hdisp]
          exact ⟨[], (.failed, acc ++ [mkErrorStep v n.agentType .unknownAgentType]),
            rfl, by simp, rfl, rfl⟩

/-- Adjacent snapshots of the loop's trace are joined by a legal state-machine
transition and only ever extend the step list (starting from the entry
snapshot `(running, acc)`). -/
theorem loopTrace_chain (registry : List String) (nodes : List Node)
    (client : Nat → Nat → ModelOutcome) (cancelFrom : Option Nat) :
    ∀ order idx acc,
      List.Chain'
        (fun a b => allowedTransition a.1 b.1 = true ∧ ∃ t, b.2 = a.2 ++ t)
        ((ExecStatus.running, acc) ::
          loopTrace registry nodes client cancelFrom order idx acc) := by
  intro order
  induction order with
  | nil =>
    intro idx acc
    rw [loopTrace_nil]
    exact List.chain'_cons.mpr ⟨⟨rfl, [], by simp⟩, List.chain'_singleton _⟩
  | cons v rest ih =>
    intro idx acc
    cases hc : cancelRequested cancelFrom idx with
    | true =>
      rw [loopTrace_cancel registry nodes client v rest acc hc]
      exact List.chain'_cons.mpr ⟨⟨rfl, [], by simp⟩, List.chain'_singleton _⟩
    | false =>
      cases hfd : nodes.find? (fun n => n.id == v) with
      | none =>
        rw [loopTrace_skip registry client rest acc hc hfd]
        exact ih (idx + 1) acc
      | some n =>
        cases hdisp : (dispatch registry n (client v)).1 with
        | ok t =>
          rw [loopTrace_ok rest acc hc hfd hdisp]
          exact List.chain'_cons.mpr
            ⟨⟨rfl, [mkSuccessStep v n.agentType t], rfl⟩,
              ih (idx + 1) (acc ++ [mkSuccessStep v n.agentType t])⟩
        | failed k =>
          rw [loopTrace_failed rest acc hc hfd hdisp]
          exact List.chain'_cons.mpr
            ⟨⟨rfl, [mkErrorStep v n.agentType (.modelError k)], rfl⟩,
              List.chain'_singleton _⟩
        | unknownAgent =>
          rw [loopTrace_unknown rest acc hc hfd hdisp]
          exact List.chain'_cons.mpr
            ⟨⟨rfl, [mkErrorStep v n.agentType .unknownAgentType], rfl⟩,
              List.chain'_singleton _⟩

/-- Structure of the loop's final state: the dispatched nodes are a prefix of
the order, one Step per dispatched node in order; a completed run dispatched
everything, a canceled or completed run has only success Steps, and a failed
run's last Step is the failed one, after only successful Steps. -/
theorem runLoop_structure (registry : List String) (nodes : List Node)
    (client : Nat → Nat → ModelOutcome) (cancelFrom : Option Nat) :
    ∀ order idx acc,
      (∀ v ∈ order, (nodes.find? (fun n => n.id == v)).isSome = true) →
      ∃ done rest newSteps st,
        runLoop registry nodes client cancelFrom order idx acc =
          (st, acc ++ newSteps) ∧
        order = done ++ rest ∧
        newSteps.map Step.nodeId = done ∧
        st.isTerminal = true ∧
        (st = .completed → rest = []) ∧
        ((st = .completed ∨ st = .canceled) →
          ∀ s ∈ newSteps, s.status = .success) ∧
        (st = .failed → ∃ pre fs, newSteps = pre ++ [fs] ∧
          fs.status = .error ∧ ∀ s ∈ pre, s.status = .success) := by
  intro order
  induction order with
  | nil =>
    intro idx acc _hfind
    exact ⟨[], [], [], .completed, by rw [runLoop_nil]; simp, rfl, rfl, rfl,
      fun _ => rfl, fun _ s hs => absurd hs (List.not_mem_nil _),
      (fun h => by cases h)⟩
  | cons v rest ih =>
    intro idx acc hfind
    cases hc : cancelRequested cancelFrom idx with
    | true =>
      rw [runLoop_cancel registry nodes client v rest acc hc]
      refine ⟨[], v :: rest, [], .canceled, by simp, rfl, rfl, rfl,
        (fun h => by cases h), fun _ s hs => absurd hs (List.not_mem_nil _),
        (fun h => by cases h)⟩
    | false =>
      cases hfd : nodes.find? (fun n => n.id == v) with
      | none =>
        exfalso
        have hv := hfind v (List.mem_cons_self _ _)
        rw [hfd] at hv
        cases hv
      | some n =>
        cases hdisp : (dispatch registry n (client v)).1 with
        | ok t =>
          rw [runLoop_ok rest acc hc hfd hdisp]
          obtain ⟨done, rest2, newSteps, st, h1, h2, h3, h4, h5, h6, h7⟩ :=
            ih (idx + 1) (acc ++ [mkSuccessStep v n.agentType t])
              (fun u hu => hfind u (List.mem_cons_of_mem _ hu))
          refine ⟨v :: done, rest2, mkSuccessStep v n.agentType t :: newSteps,
            st, ?_, by rw [h2]; rfl, by simp [h3, mkSuccessStep], h4, h5, ?_, ?_⟩
          · rw [h1]
            simp
          · intro hor s hs
            rcases List.mem_cons.mp hs with rfl | hs
            · rfl
            · exact h6 hor s hs
          · intro hst
            obtain ⟨pre, fs, hns, hfs, hpre⟩ := h7 hst
            refine ⟨mkSuccessStep v n.agentType t :: pre, fs,
              by rw [hns]; rfl, hfs, ?_⟩
            intro s hs
            rcases List.mem_cons.mp hs with rfl | hs
            · rfl
            · exact hpre s hs
        | failed k =>
          rw [runLoop_failed rest acc hc hfd hdisp]
          exact ⟨[v], rest, [mkErrorStep v n.agentType (.modelError k)],
            .failed, by simp, rfl, by simp [mkErrorStep], rfl,
            (fun h => by cases h), (fun h => by rcases h with h | h <;> cases h),
            fun _ => ⟨[], mkErrorStep v n.agentType (.modelError k), by simp,
              rfl, fun s hs => absurd hs (List.not_mem_nil _)⟩⟩
        | unknownAgent =>
          rw [runLoop_unknown rest acc hc hfd hdisp]
          exact ⟨[v], rest, [mkErrorStep v n.agentType .unknownAgentType],
            .failed, by simp, rfl, by simp [mkErrorStep], rfl,
            (fun h => by cases h), (fun h => by rcases h with h | h <;> cases h),
            fun _ => ⟨[], mkErrorStep v n.agentType .unknownAgentType, by simp,
              rfl, fun s hs => absurd hs (List.not_mem_nil _)⟩⟩

/-- Every node id of a validated order can be looked up among the workflow's
nodes. -/
theorem validate_ok_find {w : Workflow} {order : List Nat}
    (h : validate w = .ok order) :
    ∀ v ∈ order, (w.nodes.find? (fun n => n.id == v)).isSome = true := by
  intro v hv
  have hperm := kahn_ok_perm _ _ _ (validate_ok_elim h).2.2
  have hmem : v ∈ nodeIds w := hperm.mem_iff.mp hv
  obtain ⟨n, hn, hid⟩ := List.mem_map.mp hmem
  simp only [List.find?_isSome]
  exact ⟨n, hn, by simp [hid]⟩

/-- C4: an Execution's snapshot trace follows the monotonic state machine
`Queued → Running → \x7bCompleted, Failed, Canceled\x7d` with append-only step
lists; the terminal snapshot is the final one — no Step is ever appended after
a terminal status — and on a Step failure the failed Step is the last appended
Step while no later node of the topological order is ever dispatched. -/
theorem execution_state_machine (registry : List String) (w : Workflow)
    (input : String) (client : Nat → Nat → ModelOutcome)
    (cancelFrom : Option Nat) (execId : Nat) (order : List Nat)
    (hv : validate w = .ok order) :
    List.Chain'
      (fun a b => allowedTransition a.1 b.1 = true ∧ ∃ t, b.2 = a.2 ++ t)
      (execTrace registry w.nodes client cancelFrom order) ∧
    (∃ front last,
      execTrace registry w.nodes client cancelFrom order = front ++ [last] ∧
      (∀ p ∈ front, p.1 = ExecStatus.queued ∨ p.1 = ExecStatus.running) ∧
      last.1.isTerminal = true ∧
      last = runLoop registry w.nodes client cancelFrom order 0 []) ∧
    (∀ st steps,
      runLoop registry w.nodes client cancelFrom order 0 [] = (st, steps) →
      ∃ done rest, order = done ++ rest ∧ steps.map Step.nodeId = done ∧
        (st = .completed → rest = []) ∧
        (st = .failed → ∃ pre fs, steps = pre ++ [fs] ∧ fs.status = .error ∧
          ∀ s ∈ pre, s.status = .success)) ∧
    (∀ ex, startExecution registry w input client cancelFrom execId = .ok ex →
      ex.status = (runLoop registry w.nodes client cancelFrom order 0 []).1 ∧
      ex.steps = (runLoop registry w.nodes client cancelFrom order 0 []).2) := by
  refine ⟨?_, ?_, ?_, ?_⟩
  · exact List.chain'_cons.mpr ⟨⟨rfl, [], by simp⟩,
      loopTrace_chain registry w.nodes client cancelFrom order 0 []⟩
  · obtain ⟨front, last, heq, hfront, hterm, hlast⟩ :=
      loopTrace_shape registry w.nodes client cancelFrom order 0 []
    refine ⟨(ExecStatus.queued, []) :: (ExecStatus.running, []) :: front, last,
      ?_, ?_, hterm, hlast⟩
    · rw [execTrace, heq]
      rfl
    · intro p hp
      rcases List.mem_cons.mp hp with rfl | hp
      · exact Or.inl rfl
      · rcases List.mem_cons.mp hp with rfl | hp
        · exact Or.inr rfl
        · exact Or.inr (hfront p hp)
  · intro st steps hrl
    obtain ⟨done, rest, newSteps, st', h1, h2, h3, h4, h5, h6, h7⟩ :=
      runLoop_structure registry w.nodes client cancelFrom order 0 []
        (validate_ok_find hv)
    rw [hrl] at h1
    have hst : st = st' := congrArg Prod.fst h1
    have hsteps : steps = newSteps := by
      have := congrArg Prod.snd h1
      simpa using this
    subst hst
    subst hsteps
    exact ⟨done, rest, h2, h3, h5, h7⟩
  · intro ex hex
    simp only [startExecution, hv, Except.ok.injEq] at hex
    subst hex
    exact ⟨rfl, rfl⟩

/-- Witness for C4 at the Scenario B run: the `P → E → R` chain where node
`E`'s backend calls fail. -/
theorem execution_state_machine_witness :
    validate Fixtures.wChain = .ok [1, 2, 3] ∧
    List.Chain'
      (fun a b => allowedTransition a.1 b.1 = true ∧ ∃ t, b.2 = a.2 ++ t)
      (execTrace Fixtures.registryPER Fixtures.wChain.nodes
        Fixtures.clientNode2Down none [1, 2, 3]) :=
  ⟨by rfl,
    (execution_state_machine Fixtures.registryPER Fixtures.wChain
      "Analyze sales data" Fixtures.clientNode2Down none 7 [1, 2, 3]
      (by rfl)).1⟩

/-- The spec's aggregation rule returns the last Step's result text whether or
not that Step's node is tagged `reviewer`. -/
theorem aggregate_eq_getLast (steps : List Step) :
    aggregateFinalOutput steps = steps.getLast?.map Step.resultText := by
  unfold aggregateFinalOutput
  cases steps.getLast? with
  | none => rfl
  | some s => simp

/-- C5: for a completed Execution the final output is the result text of the
last Step — the Step of the last node in topological order that produced one,
whether or not it is tagged `reviewer` (the aggregation rule selects the same
text either way) — and for a failed or canceled Execution the final output is
absent. -/
theorem final_output_rule (registry : List String) (w : Workflow)
    (input : String) (client : Nat → Nat → ModelOutcome)
    (cancelFrom : Option Nat) (execId : Nat) (order : List Nat)
    (hv : validate w = .ok order) :
    ∀ ex, startExecution registry w input client cancelFrom execId = .ok ex →
      (ex.status = .completed →
        ex.steps.map Step.nodeId = order ∧
        ex.finalOutput = aggregateFinalOutput ex.steps ∧
        ex.finalOutput = ex.steps.getLast?.map Step.resultText) ∧
      ((ex.status = .failed ∨ ex.status = .canceled) →
        ex.finalOutput = none) := by
  intro ex hex
  obtain ⟨done, rest, newSteps, st, h1, h2, h3, h4, h5, h6, h7⟩ :=
    runLoop_structure registry w.nodes client cancelFrom order 0 []
      (validate_ok_find hv)
  simp only [startExecution, hv, Except.ok.injEq] at hex
  obtain ⟨hexs, hexsteps, hexout⟩ : ex.status = st ∧ ex.steps = newSteps ∧
      ex.finalOutput =
        (if st = ExecStatus.completed then aggregateFinalOutput newSteps
         else none) := by
    rw [← hex]
    simp [h1]
  constructor
  · intro hst
    rw [hexs] at hst
    subst hst
    refine ⟨?_, ?_, ?_⟩
    · rw [hexsteps, h3, h2, h5 rfl, List.append_nil]
    · rw [hexout, if_pos rfl, hexsteps]
    · rw [hexout, if_pos rfl, hexsteps, aggregate_eq_getLast]
  · intro hor
    rcases hor with hst | hst <;> rw [hexs] at hst <;> subst hst <;>
      simp [hexout]

/-- Witness for C5 at the Scenario A run: the `P → E → R` chain with all
backend calls succeeding completes with the reviewer node's result text. -/
theorem final_output_rule_witness :
    startExecution Fixtures.registryPER Fixtures.wChain "Analyze sales data"
      Fixtures.clientAllOk none 7 =
      .ok { id := 7, workflowId := 11, input := "Analyze sales data",
            status := .completed,
            steps := [mkSuccessStep 1 "planner" "out-1",
                      mkSuccessStep 2 "executor" "out-2",
                      mkSuccessStep 3 "reviewer" "out-3"],
            finalOutput := some "out-3" } ∧
    (some "out-3" : Option String) =
      ([mkSuccessStep 1 "planner" "out-1", mkSuccessStep 2 "executor" "out-2",
        mkSuccessStep 3 "reviewer" "out-3"] : List Step).getLast?.map
        Step.resultText := by
  have happ := final_output_rule Fixtures.registryPER Fixtures.wChain
    "Analyze sales data" Fixtures.clientAllOk none 7 [1, 2, 3] (by rfl)
    { id := 7, workflowId := 11, input := "Analyze sales data",
      status := .completed,
      steps := [mkSuccessStep 1 "planner" "out-1",
                mkSuccessStep 2 "executor" "out-2",
                mkSuccessStep 3 "reviewer" "out-3"],
      finalOutput := some "out-3" } (by rfl)
  exact ⟨by rfl, (happ.1 rfl).2.2⟩

end Engine
